import Mathlib

/-!
Shallow embedding of the task-list state manager from
`src/app/components/todo-app.tsx` (the `TodoApp` component), together with
theorems settling the specified properties of its operations.

The embedded pieces are:
  * the `Task` data model (`type Task` in the source);
  * the mutations `addTask`, `toggleTask`, `deleteTask` and the query
    `filteredTasks` (pure list transformations in the source, applied to the
    `tasks` state via `setTasks`);
  * the persistence effects: the load `useEffect` (read `"todos"` from
    localStorage, `JSON.parse`, `setTasks` verbatim) and the save `useEffect`
    (the empty-list guard, `JSON.stringify`, `localStorage.setItem` inside a
    `try`/`catch`).

JavaScript's `JSON.parse`/`JSON.stringify` are modelled at the structured
level: a stored string is either absent, unparsable (`JSON.parse` throws), or
parses to a `Json` value; `JSON.stringify` of a task array is the `Json` value
the platform guarantees to round-trip.  `crypto.randomUUID()` is modelled as
an id supplied by the environment.
-/

namespace TodoApp

/-- `type Priority = 'P1' | 'P2' | 'P3'` from the source. -/
inductive Priority where
  | P1
  | P2
  | P3
deriving DecidableEq, Repr

/-- The string of a priority value as it appears in JSON
(`"P1"`, `"P2"`, `"P3"`). -/
def Priority.str : Priority → String
  | .P1 => "P1"
  | .P2 => "P2"
  | .P3 => "P3"

/-- JavaScript's `String.prototype.trim()` as the source calls it
(`newTask.trim()`): strip leading and trailing whitespace.  Modelled directly
on the character list so that it is kernel-computable. -/
def jsTrim (s : String) : String :=
  String.mk (((s.data.dropWhile Char.isWhitespace).reverse.dropWhile
    Char.isWhitespace).reverse)

/-- `type Task = { id: string; text: string; completed: boolean;
priority?: Priority }` from the source.  The optional `priority` field is an
`Option`. -/
structure Task where
  id : String
  text : String
  completed : Bool
  priority : Option Priority
deriving DecidableEq, Repr

/-- Result signal of `add`.  Modelled from the spec: the TSX event handler
returns `void`; the spec's `TaskStore.add` returns the created `Task` or
`NoOp` for rejected empty input. -/
inductive AddResult where
  | noOp
  | created (t : Task)
deriving DecidableEq, Repr

/-- `addTask` from the source: rejects input whose trim is empty, otherwise
appends a task with the trimmed text, `completed = false`, the selected
priority and a fresh id from `crypto.randomUUID()` (here the parameter
`freshId`).  The `AddResult` component is the spec-modelled return signal. -/
def addTask (tasks : List Task) (newTask : String) (selectedPriority : Option Priority)
    (freshId : String) : List Task × AddResult :=
  if jsTrim newTask = "" then (tasks, .noOp)
  else
    let task : Task :=
      { id := freshId, text := jsTrim newTask, completed := false, priority := selectedPriority }
    (tasks ++ [task], .created task)

/-- `toggleTask` from the source: maps over the list, flipping `completed` on
tasks whose id matches and returning every other task unchanged. -/
def toggleTask (tasks : List Task) (id : String) : List Task :=
  tasks.map fun task =>
    if task.id = id then { task with completed := !task.completed } else task

/-- Result signal of `toggle`.  Modelled from the spec: the TSX event handler
returns `void`; the spec's `TaskStore.toggle` returns the updated `Task` or
signals `NotFound`. -/
inductive ToggleResult where
  | updated (t : Task)
  | notFound
deriving DecidableEq, Repr

/-- Modelled from the spec: the value `toggle` reports to its caller — the
matching task with its `completed` flag flipped, or `NotFound` when no task
has the id. -/
def toggleResult (tasks : List Task) (id : String) : ToggleResult :=
  match tasks.find? (fun t => t.id = id) with
  | some t => .updated { t with completed := !t.completed }
  | none => .notFound

/-- `deleteTask` from the source: keeps exactly the tasks whose id differs
from the argument. -/
def deleteTask (tasks : List Task) (id : String) : List Task :=
  tasks.filter fun task => task.id ≠ id

/-- Modelled from the spec: the boolean `remove` reports — whether a task was
actually removed. -/
def deleteResult (tasks : List Task) (id : String) : Bool :=
  tasks.any fun task => task.id = id

/-- `filteredTasks` from the source: `"active"` keeps non-completed tasks,
`"completed"` keeps completed tasks, any other tab value keeps everything. -/
def filteredTasks (tasks : List Task) (activeTab : String) : List Task :=
  tasks.filter fun task =>
    if activeTab = "active" then !task.completed
    else if activeTab = "completed" then task.completed
    else true

/-- Runs a sequence of `addTask` calls.  Ids come from the supply `supply`;
the index advances exactly when a task is created, matching the source where
`crypto.randomUUID()` is only reached after the empty-trim guard. -/
def runAdds (tasks : List Task) (inputs : List (String × Option Priority))
    (supply : Nat → String) (k : Nat) : List Task :=
  match inputs with
  | [] => tasks
  | (txt, prio) :: rest =>
    let r := addTask tasks txt prio (supply k)
    match r.2 with
    | .noOp => runAdds r.1 rest supply k
    | .created _ => runAdds r.1 rest supply (k + 1)

/-- JSON values, as produced by `JSON.parse` and consumed by
`JSON.stringify`.  Objects are ordered field lists, matching JavaScript's
insertion-ordered string keys. -/
inductive Json where
  | null
  | bool (b : Bool)
  | num (n : Int)
  | str (s : String)
  | arr (elems : List Json)
  | obj (fields : List (String × Json))

/-- JavaScript property read `j[key]` on a parsed value: the first field with
the key on an object, `undefined` (here `none`) otherwise. -/
def Json.getField (j : Json) (key : String) : Option Json :=
  match j with
  | .obj fields => fields.lookup key
  | _ => none

/-- JavaScript's `.length` read on a parsed value: defined for strings and
arrays, `undefined` (here `none`) for booleans, numbers and objects.  Reading
`.length` on `null` throws; `saveEffect` handles that case separately. -/
def Json.jsLength : Json → Option Nat
  | .str s => some s.length
  | .arr l => some l.length
  | _ => none

/-- What `localStorage.getItem("todos")` yields, seen through `JSON.parse`:
absent (`null`, or the falsy empty string), a string `JSON.parse` throws on,
or a string parsing to a `Json` value. -/
inductive StoredVal where
  | absent
  | corrupt
  | val (j : Json)

/-- `JSON.stringify` of one task object.  `JSON.stringify` omits keys whose
value is `undefined`, so an absent priority produces no `"priority"` key. -/
def taskToJson (t : Task) : Json :=
  .obj ([("id", .str t.id), ("text", .str t.text), ("completed", .bool t.completed)] ++
    match t.priority with
    | some p => [("priority", .str p.str)]
    | none => [])

/-- `JSON.stringify(tasks)` for the whole list. -/
def stringifyTasks (tasks : List Task) : Json :=
  .arr (tasks.map taskToJson)

/-- Outcome of one run of the save `useEffect`:  it either completes without
an exception (`didWrite` tells whether `setItem` happened, `stored` is the
resulting persisted value) or an uncaught exception escapes the effect. -/
inductive SaveResult where
  | ok (didWrite : Bool) (stored : StoredVal)
  | raised

/-- The save `useEffect` from the source.  `available` is the
`isLocalStorageAvailable()` probe; `writeFails` says whether
`localStorage.setItem` throws (that throw is inside the `try` and is caught).
When `tasks` is empty the guard reads and `JSON.parse`s the existing
`"todos"` value *outside* any `try`: an unparsable value makes `JSON.parse`
throw, and a stored `null` makes the `parsedExistingTasks.length` read throw;
for other parsed values, `length > 0` compares JavaScript-style (`undefined >
0` is false). -/
def saveEffect (available : Bool) (tasks : List Task) (stored : StoredVal)
    (writeFails : Bool) : SaveResult :=
  if !available then .ok false stored
  else
    let doSave : SaveResult :=
      if writeFails then .ok false stored
      else .ok true (.val (stringifyTasks tasks))
    if tasks.length = 0 then
      match stored with
      | .absent => doSave
      | .corrupt => .raised
      | .val .null => .raised
      | .val j =>
        match j.jsLength with
        | some n => if n > 0 then .ok false stored else doSave
        | none => doSave
    else doSave

/-- The load `useEffect` from the source.  If storage is unavailable or the
value is absent, the in-memory value stays; if `JSON.parse` throws, the
exception is caught (inside the `try`) and the in-memory value stays;
otherwise `setTasks(parsedTasks)` installs the parsed value verbatim — no
shape check and no per-entry filtering.  The in-memory state is a `Json`
value here because the source performs no conversion. -/
def loadEffect (available : Bool) (stored : StoredVal) (current : Json) : Json :=
  if !available then current
  else
    match stored with
    | .absent => current
    | .corrupt => current
    | .val j => j

/-- A loaded snapshot entry agrees with a task on the four observable fields,
read the way the UI reads them (`task.id`, `task.text`, `task.completed`,
`task.priority`). -/
def entryMatchesTask (j : Json) (t : Task) : Prop :=
  j.getField "id" = some (.str t.id) ∧
  j.getField "text" = some (.str t.text) ∧
  j.getField "completed" = some (.bool t.completed) ∧
  j.getField "priority" = t.priority.map (fun p => .str p.str)

/-- C1: for every input string, `add` trims the text; if the trimmed result
is empty the list is unchanged (length and contents) and `NoOp` is returned;
otherwise exactly one new task is appended at the end of the list carrying
the trimmed text, `completed = false`, and the fresh id, and that created
task is returned. -/
theorem addTask_spec (tasks : List Task) (text : String) (prio : Option Priority)
    (fid : String) :
    (jsTrim text = "" → addTask tasks text prio fid = (tasks, .noOp)) ∧
    (jsTrim text ≠ "" →
      ∃ t : Task, addTask tasks text prio fid = (tasks ++ [t], .created t) ∧
        t.id = fid ∧ t.text = jsTrim text ∧ t.completed = false ∧ t.priority = prio) := by
  constructor
  · intro h
    simp [addTask, h]
  · intro h
    exact ⟨{ id := fid, text := jsTrim text, completed := false, priority := prio },
      by simp [addTask, h], rfl, rfl, rfl, rfl⟩

/-- Witness for C1 at concrete inputs: whitespace-only input is rejected
without touching the list, and a real input appends exactly one task. -/
theorem addTask_spec_witness :
    addTask [] "   " none "u0" = ([], .noOp) ∧
    ∃ t : Task, addTask [] " buy milk " (some .P1) "u1" = ([t], .created t) ∧
      t.id = "u1" ∧ t.text = "buy milk" ∧ t.completed = false ∧ t.priority = some .P1 := by
  constructor
  · exact (addTask_spec [] "   " none "u0").1 (by decide)
  · obtain ⟨t, h1, h2, h3, h4, h5⟩ :=
      (addTask_spec [] " buy milk " (some .P1) "u1").2 (by decide)
    exact ⟨t, by simpa using h1, h2, by simpa using h3, h4, h5⟩

/-- C2: `toggle(id)` preserves length and, position by position, flips the
`completed` flag of tasks whose id matches and leaves every other task
untouched; when no task has the id the list is unchanged and `NotFound` is
signaled; when some task has the id the signal is the updated task, which is
a member of the updated list. -/
theorem toggleTask_spec (tasks : List Task) (id : String) :
    (toggleTask tasks id).length = tasks.length ∧
    (∀ i : Nat, (toggleTask tasks id)[i]? =
      (tasks[i]?.map fun t =>
        if t.id = id then { t with completed := !t.completed } else t)) ∧
    ((∀ t ∈ tasks, t.id ≠ id) →
      toggleTask tasks id = tasks ∧ toggleResult tasks id = .notFound) ∧
    (∀ t ∈ tasks, t.id = id →
      ∃ u, toggleResult tasks id = .updated u ∧ u ∈ toggleTask tasks id ∧ u.id = id) := by
  refine ⟨by simp [toggleTask], fun i => by simp [toggleTask], ?_, ?_⟩
  · intro h
    constructor
    · have : ∀ t ∈ tasks,
          (if t.id = id then { t with completed := !t.completed } else t) = t := by
        intro t ht
        simp [h t ht]
      simp [toggleTask]
      exact List.map_congr_left this |>.trans (List.map_id _)
    · have hn : tasks.find? (fun t => t.id = id) = none := by
        simp only [List.find?_eq_none]
        intro t ht
        simp [h t ht]
      simp [toggleResult, hn]
  · intro t ht hid
    have hs : (tasks.find? (fun t => t.id = id)).isSome := by
      rw [List.find?_isSome]
      exact ⟨t, ht, by simp [hid]⟩
    obtain ⟨u, hu⟩ := Option.isSome_iff_exists.mp hs
    have humem : u ∈ tasks := List.mem_of_find?_eq_some hu
    have huid : u.id = id := by simpa using List.find?_some hu
    refine ⟨{ u with completed := !u.completed }, by simp [toggleResult, hu], ?_, huid⟩
    have : ({ u with completed := !u.completed } : Task) =
        (fun t => if t.id = id then { t with completed := !t.completed } else t) u := by
      simp [huid]
    rw [this]
    exact List.mem_map_of_mem _ humem

/-- Witness for C2 at concrete inputs: toggling a missing id leaves the
one-task list unchanged and signals `NotFound`; toggling a present id
returns the flipped task, which sits in the updated list. -/
theorem toggleTask_spec_witness :
    (toggleTask [{ id := "a", text := "x", completed := false, priority := none }] "b" =
        [{ id := "a", text := "x", completed := false, priority := none }] ∧
      toggleResult [{ id := "a", text := "x", completed := false, priority := none }] "b" =
        .notFound) ∧
    ∃ u, toggleResult [{ id := "a", text := "x", completed := false, priority := none }] "a" =
        .updated u ∧
      u ∈ toggleTask [{ id := "a", text := "x", completed := false, priority := none }] "a" ∧
      u.id = "a" := by
  constructor
  · exact (toggleTask_spec
      [{ id := "a", text := "x", completed := false, priority := none }] "b").2.2.1
      (by decide)
  · exact (toggleTask_spec
      [{ id := "a", text := "x", completed := false, priority := none }] "a").2.2.2
      { id := "a", text := "x", completed := false, priority := none } (by simp) rfl

/-- C10: for an id present in the list, `toggle(id)` changes only the
`completed` field of matching tasks: position by position, `id`, `text` and
`priority` are all preserved, and the length (hence the order) of the list is
unchanged. -/
theorem toggleTask_frame (tasks : List Task) (id : String)
    (_hmem : id ∈ tasks.map Task.id) :
    (toggleTask tasks id).length = tasks.length ∧
    ∀ i : Nat,
      ((toggleTask tasks id)[i]?.map Task.id) = (tasks[i]?.map Task.id) ∧
      ((toggleTask tasks id)[i]?.map Task.text) = (tasks[i]?.map Task.text) ∧
      ((toggleTask tasks id)[i]?.map Task.priority) = (tasks[i]?.map Task.priority) := by
  refine ⟨by simp [toggleTask], fun i => ?_⟩
  refine ⟨?_, ?_, ?_⟩ <;>
  · simp only [toggleTask, List.getElem?_map, Option.map_map]
    cases tasks[i]? with
    | none => rfl
    | some t =>
      by_cases ht : t.id = id <;> simp [ht]

/-- Witness for C10 at a concrete input: toggling the only task's id keeps
its `id`, `text` and `priority` at every position. -/
theorem toggleTask_frame_witness :
    (toggleTask [{ id := "a", text := "x", completed := false, priority := some .P2 }]
        "a").length =
      [({ id := "a", text := "x", completed := false, priority := some .P2 } : Task)].length ∧
    ∀ i : Nat,
      ((toggleTask [{ id := "a", text := "x", completed := false, priority := some .P2 }]
          "a")[i]?.map Task.id) =
        ([({ id := "a", text := "x", completed := false, priority := some .P2 } :
          Task)][i]?.map Task.id) ∧
      ((toggleTask [{ id := "a", text := "x", completed := false, priority := some .P2 }]
          "a")[i]?.map Task.text) =
        ([({ id := "a", text := "x", completed := false, priority := some .P2 } :
          Task)][i]?.map Task.text) ∧
      ((toggleTask [{ id := "a", text := "x", completed := false, priority := some .P2 }]
          "a")[i]?.map Task.priority) =
        ([({ id := "a", text := "x", completed := false, priority := some .P2 } :
          Task)][i]?.map Task.priority) :=
  toggleTask_frame [{ id := "a", text := "x", completed := false, priority := some .P2 }]
    "a" (by decide)

/-- C3: `filter` is a pure, order-preserving function of the current list —
`"active"` contains exactly the non-completed tasks, `"completed"` exactly
the completed tasks, `"all"` all tasks, each as an order-preserving sublist;
over a list whose ids are unique (the data-model invariant), the id-sets of
`"active"` and `"completed"` are disjoint and their union is the id-set of
`"all"`. -/
theorem filteredTasks_spec (tasks : List Task)
    (hnd : (tasks.map Task.id).Nodup) :
    (∀ t, t ∈ filteredTasks tasks "active" ↔ t ∈ tasks ∧ t.completed = false) ∧
    (∀ t, t ∈ filteredTasks tasks "completed" ↔ t ∈ tasks ∧ t.completed = true) ∧
    filteredTasks tasks "all" = tasks ∧
    List.Sublist (filteredTasks tasks "active") tasks ∧
    List.Sublist (filteredTasks tasks "completed") tasks ∧
    (∀ i, ¬(i ∈ (filteredTasks tasks "active").map Task.id ∧
            i ∈ (filteredTasks tasks "completed").map Task.id)) ∧
    (∀ i, i ∈ (filteredTasks tasks "all").map Task.id ↔
      i ∈ (filteredTasks tasks "active").map Task.id ∨
      i ∈ (filteredTasks tasks "completed").map Task.id) := by
  have hact : ∀ t, t ∈ filteredTasks tasks "active" ↔ t ∈ tasks ∧ t.completed = false := by
    intro t
    simp [filteredTasks, List.mem_filter]
  have hcom : ∀ t, t ∈ filteredTasks tasks "completed" ↔ t ∈ tasks ∧ t.completed = true := by
    intro t
    simp [filteredTasks, List.mem_filter]
  have hall : filteredTasks tasks "all" = tasks := by
    simp [filteredTasks]
  refine ⟨hact, hcom, hall, List.filter_sublist _, List.filter_sublist _, ?_, ?_⟩
  · rintro i ⟨ha, hc⟩
    obtain ⟨a, hamem, rfl⟩ := List.mem_map.mp ha
    obtain ⟨c, hcmem, hid⟩ := List.mem_map.mp hc
    obtain ⟨hat, hac⟩ := (hact a).mp hamem
    obtain ⟨hct, hcc⟩ := (hcom c).mp hcmem
    have : c = a := List.inj_on_of_nodup_map hnd hct hat hid
    rw [this] at hcc
    rw [hac] at hcc
    exact Bool.false_ne_true hcc
  · intro i
    rw [hall]
    constructor
    · intro hi
      obtain ⟨t, htmem, rfl⟩ := List.mem_map.mp hi
      cases hc : t.completed with
      | false => exact Or.inl (List.mem_map.mpr ⟨t, (hact t).mpr ⟨htmem, hc⟩, rfl⟩)
      | true => exact Or.inr (List.mem_map.mpr ⟨t, (hcom t).mpr ⟨htmem, hc⟩, rfl⟩)
    · rintro (hi | hi)
      · obtain ⟨t, htmem, rfl⟩ := List.mem_map.mp hi
        exact List.mem_map.mpr ⟨t, ((hact t).mp htmem).1, rfl⟩
      · obtain ⟨t, htmem, rfl⟩ := List.mem_map.mp hi
        exact List.mem_map.mpr ⟨t, ((hcom t).mp htmem).1, rfl⟩

/-- Witness for C3 at a concrete two-task list with distinct ids. -/
theorem filteredTasks_spec_witness :
    (∀ t, t ∈ filteredTasks
        [{ id := "a", text := "x", completed := false, priority := none },
         { id := "b", text := "y", completed := true, priority := some .P3 }] "active" ↔
      t ∈ [({ id := "a", text := "x", completed := false, priority := none } : Task),
           { id := "b", text := "y", completed := true, priority := some .P3 }] ∧
        t.completed = false) ∧
    (∀ t, t ∈ filteredTasks
        [{ id := "a", text := "x", completed := false, priority := none },
         { id := "b", text := "y", completed := true, priority := some .P3 }] "completed" ↔
      t ∈ [({ id := "a", text := "x", completed := false, priority := none } : Task),
           { id := "b", text := "y", completed := true, priority := some .P3 }] ∧
        t.completed = true) ∧
    filteredTasks
        [{ id := "a", text := "x", completed := false, priority := none },
         { id := "b", text := "y", completed := true, priority := some .P3 }] "all" =
      [{ id := "a", text := "x", completed := false, priority := none },
       { id := "b", text := "y", completed := true, priority := some .P3 }] ∧
    List.Sublist (filteredTasks
        [{ id := "a", text := "x", completed := false, priority := none },
         { id := "b", text := "y", completed := true, priority := some .P3 }] "active")
      [{ id := "a", text := "x", completed := false, priority := none },
       { id := "b", text := "y", completed := true, priority := some .P3 }] ∧
    List.Sublist (filteredTasks
        [{ id := "a", text := "x", completed := false, priority := none },
         { id := "b", text := "y", completed := true, priority := some .P3 }] "completed")
      [{ id := "a", text := "x", completed := false, priority := none },
       { id := "b", text := "y", completed := true, priority := some .P3 }] ∧
    (∀ i, ¬(i ∈ (filteredTasks
          [{ id := "a", text := "x", completed := false, priority := none },
           { id := "b", text := "y", completed := true, priority := some .P3 }]
          "active").map Task.id ∧
        i ∈ (filteredTasks
          [{ id := "a", text := "x", completed := false, priority := none },
           { id := "b", text := "y", completed := true, priority := some .P3 }]
          "completed").map Task.id)) ∧
    (∀ i, i ∈ (filteredTasks
        [{ id := "a", text := "x", completed := false, priority := none },
         { id := "b", text := "y", completed := true, priority := some .P3 }]
        "all").map Task.id ↔
      i ∈ (filteredTasks
        [{ id := "a", text := "x", completed := false, priority := none },
         { id := "b", text := "y", completed := true, priority := some .P3 }]
        "active").map Task.id ∨
      i ∈ (filteredTasks
        [{ id := "a", text := "x", completed := false, priority := none },
         { id := "b", text := "y", completed := true, priority := some .P3 }]
        "completed").map Task.id) :=
  filteredTasks_spec
    [{ id := "a", text := "x", completed := false, priority := none },
     { id := "b", text := "y", completed := true, priority := some .P3 }]
    (by decide)

/-- C4: `remove(id)` deletes exactly the tasks matching the id (non-matching
tasks survive), the reported boolean says whether a task was actually removed
(equivalently, whether the list shrank), and `filter("all")` after the
removal contains no task with that id. -/
theorem deleteTask_spec (tasks : List Task) (id : String) :
    (∀ t ∈ deleteTask tasks id, t.id ≠ id) ∧
    (∀ t ∈ tasks, t.id ≠ id → t ∈ deleteTask tasks id) ∧
    (∀ t ∈ filteredTasks (deleteTask tasks id) "all", t.id ≠ id) ∧
    (deleteResult tasks id = true ↔ ∃ t ∈ tasks, t.id = id) ∧
    (deleteResult tasks id = true ↔ (deleteTask tasks id).length < tasks.length) := by
  have hall : filteredTasks (deleteTask tasks id) "all" = deleteTask tasks id := by
    simp [filteredTasks]
  have hmem : ∀ t ∈ deleteTask tasks id, t.id ≠ id := by
    intro t ht
    have := (List.mem_filter.mp ht).2
    simpa using this
  refine ⟨hmem, ?_, ?_, ?_, ?_⟩
  · intro t ht hne
    exact List.mem_filter.mpr ⟨ht, by simpa using hne⟩
  · rw [hall]
    exact hmem
  · simp [deleteResult, List.any_eq_true]
  · rw [deleteTask, List.length_filter_lt_length_iff_exists]
    simp [deleteResult, List.any_eq_true]

/-- Witness for C4 at a concrete input (no hypotheses to discharge; the
theorem is applied at a two-task list and a present id). -/
theorem deleteTask_spec_witness :
    deleteResult
        [{ id := "a", text := "x", completed := false, priority := none },
         { id := "b", text := "y", completed := true, priority := none }] "a" = true ∧
    deleteTask
        [{ id := "a", text := "x", completed := false, priority := none },
         { id := "b", text := "y", completed := true, priority := none }] "a" ≠
      [{ id := "a", text := "x", completed := false, priority := none },
       { id := "b", text := "y", completed := true, priority := none }] := by
  have h := deleteTask_spec
    [{ id := "a", text := "x", completed := false, priority := none },
     { id := "b", text := "y", completed := true, priority := none }] "a"
  have hres : deleteResult
      [{ id := "a", text := "x", completed := false, priority := none },
       { id := "b", text := "y", completed := true, priority := none }] "a" = true :=
    h.2.2.2.1.mpr ⟨{ id := "a", text := "x", completed := false, priority := none },
      by simp, rfl⟩
  refine ⟨hres, ?_⟩
  intro heq
  have hlt := h.2.2.2.2.mp hres
  rw [heq] at hlt
  exact lt_irrefl _ hlt

/-- C5: loading the serialized snapshot of any task list yields, entry by
entry, values agreeing with the original tasks on `id`, `text`, `completed`
and `priority` — the JSON snapshot round-trip is lossless. -/
theorem load_serialize_roundtrip (tasks : List Task) (current : Json) :
    loadEffect true (.val (stringifyTasks tasks)) current = .arr (tasks.map taskToJson) ∧
    List.Forall₂ entryMatchesTask (tasks.map taskToJson) tasks := by
  refine ⟨rfl, ?_⟩
  induction tasks with
  | nil => exact List.Forall₂.nil
  | cons t ts ih =>
    refine List.Forall₂.cons ?_ ih
    cases hp : t.priority with
    | none => simp [entryMatchesTask, taskToJson, Json.getField, hp, List.lookup]
    | some p => simp [entryMatchesTask, taskToJson, Json.getField, hp, List.lookup]

/-- A snapshot entry with no `"id"` key, as in the spec's malformed-entry
scenario. -/
def malformedEntry : Json :=
  .obj [("text", .str "a"), ("completed", .bool false)]

/-- A well-formed snapshot entry. -/
def validEntry : Json :=
  .obj [("id", .str "t1"), ("text", .str "b"), ("completed", .bool false)]

/-- A snapshot holding one malformed and one valid entry. -/
def mixedSnapshot : Json :=
  .arr [malformedEntry, validEntry]

/-- C6 counterexample: loading a parsed snapshot containing an entry with no
`id` field installs that entry verbatim — the loaded list is not the list of
valid entries only, so the malformed entry is not skipped. -/
theorem load_installs_malformed_entry :
    loadEffect true (.val mixedSnapshot) (.arr []) = .arr [malformedEntry, validEntry] ∧
    malformedEntry.getField "id" = none ∧
    loadEffect true (.val mixedSnapshot) (.arr []) ≠ .arr [validEntry] := by
  refine ⟨rfl, rfl, ?_⟩
  intro h
  simp [loadEffect, mixedSnapshot] at h

/-- C6 amended: `load` given a snapshot that fails to parse catches the error
and keeps the current list (the whole load is skipped, no crash); given a
snapshot that parses to an entry array it installs the entries verbatim —
every valid entry is loaded, and so is every malformed one. -/
theorem load_tolerance_spec (current : Json) :
    loadEffect true .corrupt current = current ∧
    loadEffect true .absent current = current ∧
    ∀ elems, loadEffect true (.val (.arr elems)) current = .arr elems ∧
      ∀ e ∈ elems, ∃ loaded,
        loadEffect true (.val (.arr elems)) current = .arr loaded ∧ e ∈ loaded := by
  exact ⟨rfl, rfl, fun elems => ⟨rfl, fun e he => ⟨elems, rfl, he⟩⟩⟩

/-- Witness for C6's amended theorem at a concrete current value and
snapshot. -/
theorem load_tolerance_spec_witness :
    loadEffect true .corrupt (.arr [validEntry]) = .arr [validEntry] ∧
    loadEffect true (.val (.arr [validEntry])) (.arr []) = .arr [validEntry] := by
  have h := load_tolerance_spec (.arr [validEntry])
  have h2 := load_tolerance_spec (.arr [])
  exact ⟨h.1, (h2.2.2 [validEntry]).1⟩

/-- C7: when the in-memory list is empty and the persisted `"todos"` value is
a non-empty array, the save effect writes nothing and leaves the persisted
value unchanged — an empty list is never written over a non-empty persisted
one.  This holds whether or not storage is available and whether or not the
write would fail. -/
theorem save_skips_empty_over_nonempty (available : Bool) (l : List Json)
    (writeFails : Bool) (h : l ≠ []) :
    saveEffect available [] (.val (.arr l)) writeFails =
      .ok false (.val (.arr l)) := by
  cases available with
  | false => simp [saveEffect]
  | true =>
    have hl : 0 < l.length := List.length_pos.mpr h
    simp [saveEffect, Json.jsLength, hl]

/-- Witness for C7 at a concrete non-empty persisted array. -/
theorem save_skips_empty_over_nonempty_witness :
    saveEffect true [] (.val (.arr [validEntry])) false =
      .ok false (.val (.arr [validEntry])) :=
  save_skips_empty_over_nonempty true [validEntry] false (List.cons_ne_nil _ _)

/-- C8 failing input: with storage available, an empty in-memory list and a
persisted `"todos"` value that `JSON.parse` rejects (or that parses to
`null`, whose `.length` read throws), the save effect raises an uncaught
exception — the guard's parse runs outside the `try`/`catch`. -/
theorem save_raises_on_corrupt_stored :
    saveEffect true [] .corrupt false = .raised ∧
    saveEffect true [] (.val .null) false = .raised :=
  ⟨rfl, rfl⟩

/-- C9: starting from a list with pairwise-distinct ids, running any sequence
of `add` operations with an injective id supply that avoids the existing ids
keeps the ids of the whole list pairwise distinct; in particular all
generated ids are pairwise distinct. -/
theorem runAdds_ids_nodup (tasks : List Task) (inputs : List (String × Option Priority))
    (supply : Nat → String) (k : Nat)
    (hinj : ∀ m n, supply m = supply n → m = n)
    (hfresh : ∀ n, k ≤ n → supply n ∉ tasks.map Task.id)
    (hnd : (tasks.map Task.id).Nodup) :
    ((runAdds tasks inputs supply k).map Task.id).Nodup := by
  induction inputs generalizing tasks k with
  | nil => simpa [runAdds]
  | cons p rest ih =>
    obtain ⟨txt, prio⟩ := p
    by_cases h : jsTrim txt = ""
    · have hr : runAdds tasks ((txt, prio) :: rest) supply k =
          runAdds tasks rest supply k := by
        simp [runAdds, addTask, h]
      rw [hr]
      exact ih tasks k hfresh hnd
    · have hr : runAdds tasks ((txt, prio) :: rest) supply k =
          runAdds (tasks ++
            [{ id := supply k, text := jsTrim txt, completed := false, priority := prio }])
            rest supply (k + 1) := by
        simp [runAdds, addTask, h]
      rw [hr]
      apply ih
      · intro n hn
        simp only [List.map_append, List.mem_append, List.map_cons, List.map_nil,
          List.mem_singleton]
        rintro (hmem | hmem)
        · exact hfresh n (Nat.le_of_succ_le hn) hmem
        · have := hinj n k hmem
          omega
      · rw [List.map_append]
        rw [List.nodup_append]
        refine ⟨hnd, List.nodup_singleton _, ?_⟩
        intro a ha hb
        simp only [List.map_cons, List.map_nil, List.mem_singleton] at hb
        rw [hb] at ha
        exact hfresh k le_rfl ha

/-- Witness for C9: three adds (one rejected for whitespace-only input) from
the empty list with a concrete injective supply produce pairwise-distinct
ids. -/
theorem runAdds_ids_nodup_witness :
    ((runAdds [] [("a", none), ("  ", none), ("b", some .P1)]
        (fun n => String.mk (List.replicate n 'x')) 0).map Task.id).Nodup := by
  apply runAdds_ids_nodup
  · intro m n hmn
    have := congrArg String.length hmn
    simpa [String.length] using this
  · intro n _ hmem
    simp at hmem
  · simp

end TodoApp
